import Mathlib

/-!
Verification of the `neuer-error` Rust error-handling library (src/error.rs,
src/results.rs) via a shallow embedding: the context stack, its mutators
(`context`, `attach`, `attach_override`), the typed attachment readers, the
`Display` renderer in expanded and compact mode, the `Result` combinators and
the `Termination` mapping are translated into executable Lean definitions, and
the specified properties are proved about them.
-/

set_option autoImplicit false

namespace NeuerError

/-- Source locations (`&'static Location`) are modeled by their rendered text
`file:line:column`; `#[track_caller]` capture becomes an explicit parameter. -/
abbrev Loc := String

/-- `HumanInfo` (src/error.rs): message text plus location of occurrence. -/
structure HumanInfo where
  message : String
  location : Loc
  deriving DecidableEq

/-- `MachineInfo` (src/error.rs): a type-erased attachment
`Box<dyn AnyDebugSendSync>`. The dynamic type identity (`TypeId`) is modeled as
a natural-number tag and the boxed value as a natural number; a `downcast` to
type `C` succeeds exactly when the stored tag equals the tag of `C`. -/
structure MachineInfo where
  tag : Nat
  val : Nat
  deriving DecidableEq

/-- `Info` (src/error.rs): context information, either human or machine. -/
inductive Info where
  | human (info : HumanInfo)
  | machine (info : MachineInfo)
  deriving DecidableEq

/-- A foreign source error (`Box<dyn ErrorSendSync>`): its `Display` message
plus the chain reachable through its own `Error::source` accessor; `leaf` is an
error whose `source()` is `None`. -/
inductive ChainErr where
  | leaf (message : String)
  | node (message : String) (next : ChainErr)
  deriving DecidableEq

/-- The `Display` message of a foreign error. -/
def ChainErr.message : ChainErr → String
  | .leaf m => m
  | .node m _ => m

/-- `NeuErrImpl` (src/error.rs): contextual error information plus optional
source error. `NeuErr` is a transparent newtype around it whose methods all
delegate, and src/results.rs calls the same type `CtxError`; the claims are
settled on this one structure. -/
structure NeuErrImpl where
  infos : List Info
  source : Option ChainErr
  deriving DecidableEq

/-- Alias used by src/results.rs for the same error type. -/
abbrev CtxError := NeuErrImpl

/-- `NeuErr::new`: single narration entry at the caller's location, no cause. -/
def NeuErrImpl.new (msg : String) (loc : Loc) : NeuErrImpl :=
  { infos := [.human ⟨msg, loc⟩], source := none }

/-- `NeuErr::new_with_source`: one narration entry plus the causal source. -/
def NeuErrImpl.new_with_source (msg : String) (loc : Loc) (src : ChainErr) : NeuErrImpl :=
  { infos := [.human ⟨msg, loc⟩], source := some src }

/-- `NeuErr::from_source`: no narration entries, only the causal source. -/
def NeuErrImpl.from_source (src : ChainErr) : NeuErrImpl :=
  { infos := [], source := some src }

/-- `NeuErrImpl::context`: push one human info at the end of the stack. -/
def NeuErrImpl.context (e : NeuErrImpl) (msg : String) (loc : Loc) : NeuErrImpl :=
  { e with infos := e.infos ++ [.human ⟨msg, loc⟩] }

/-- `NeuErrImpl::attach`: push one machine info at the end of the stack,
never touching existing entries. -/
def NeuErrImpl.attach (e : NeuErrImpl) (t v : Nat) : NeuErrImpl :=
  { e with infos := e.infos ++ [.machine ⟨t, v⟩] }

/-- One pass of the `retain_mut` loop in `NeuErrImpl::attach_override`
(src/error.rs): a machine entry whose tag matches the new value's type is
replaced by the new value on first encounter (setting the `inserted` flag) and
dropped as a duplicate afterwards; other entries are kept unchanged. Returns
the retained list together with the final `inserted` flag. -/
def overrideGo (t v : Nat) : List Info → Bool → List Info × Bool
  | [], inserted => ([], inserted)
  | .machine m :: rest, inserted =>
    if m.tag = t then
      if inserted then
        overrideGo t v rest inserted
      else
        let r := overrideGo t v rest true
        (.machine ⟨t, v⟩ :: r.1, r.2)
    else
      let r := overrideGo t v rest inserted
      (.machine m :: r.1, r.2)
  | .human h :: rest, inserted =>
    let r := overrideGo t v rest inserted
    (.human h :: r.1, r.2)

/-- The full body of `NeuErrImpl::attach_override` at the list level: run the
`retain_mut` pass starting with `inserted = false`; if no existing entry of the
same type was found to be replaced, push a new machine entry at the end. -/
def overrideResult (t v : Nat) (l : List Info) : List Info :=
  let r := overrideGo t v l false
  if r.2 then r.1 else r.1 ++ [.machine ⟨t, v⟩]

/-- `NeuErrImpl::attach_override` (src/error.rs). -/
def NeuErrImpl.attach_override (e : NeuErrImpl) (t v : Nat) : NeuErrImpl :=
  { e with infos := overrideResult t v e.infos }

/-- `NeuErrImpl::infos()`: reverse (newest-first) traversal of the stack. -/
def NeuErrImpl.infosRev (e : NeuErrImpl) : List Info :=
  e.infos.reverse

/-- The human projection used by `contexts()` (`filter_map` on `Info::Human`). -/
def humanOf : Info → Option HumanInfo
  | .human h => some h
  | _ => none

/-- The machine projection used by `attachments()` (`filter_map` on
`Info::Machine`). -/
def machineOf : Info → Option MachineInfo
  | .machine m => some m
  | _ => none

/-- The downcast step of `attachments::<C>()`: the value survives exactly when
its stored type tag equals the requested one. -/
def downcastTo (t : Nat) (m : MachineInfo) : Option Nat :=
  if m.tag = t then some m.val else none

/-- `NeuErrImpl::contexts()`: the human context infos, newest first. -/
def NeuErrImpl.contextsList (e : NeuErrImpl) : List HumanInfo :=
  e.infosRev.filterMap humanOf

/-- `NeuErrImpl::attachments::<C>()`: filter the machine infos (newest first)
and then keep exactly the values whose dynamic type tag downcasts to the
requested tag. -/
def NeuErrImpl.attachments (e : NeuErrImpl) (t : Nat) : List Nat :=
  (e.infosRev.filterMap machineOf).filterMap (downcastTo t)

/-- `NeuErrImpl::attachment::<C>()`: the first (newest) matching attachment. -/
def NeuErrImpl.attachment (e : NeuErrImpl) (t : Nat) : Option Nat :=
  (e.attachments t).head?

/-- Whether a stack entry is a machine attachment of dynamic type `t`. -/
def isAttachOf (t : Nat) : Info → Bool
  | .machine m => m.tag == t
  | .human _ => false

/-- One narration block of the `Display` impl (src/error.rs): in compact
(alternate) mode the message with its location in parentheses, in expanded mode
the message line followed by the location line. -/
def humanBlock (alternate : Bool) (c : HumanInfo) : String :=
  if alternate then c.message ++ " (at " ++ c.location ++ ")"
  else c.message ++ "\n|- at " ++ c.location

/-- The `while let Some(context) = human.next()` loop of the `Display` impl: a
block separator is written only when `peek` sees a further entry. -/
def humanLoop (alternate : Bool) : List HumanInfo → String
  | [] => ""
  | c :: rest =>
    if rest.isEmpty then humanBlock alternate c
    else humanBlock alternate c ++ (if alternate then "; " else "\n|\n") ++ humanLoop alternate rest

/-- The `while let Some(err) = source` loop of the `Display` impl: walk the
causal chain from the immediate cause outward via each error's own `source()`,
emitting one caused-by block per link, stopping at the first link with no
further cause. -/
def causeLoop (alternate : Bool) : ChainErr → String
  | .leaf m =>
    if alternate then "; caused by: " ++ m else "\n|\n|- caused by: " ++ m
  | .node m next =>
    (if alternate then "; caused by: " ++ m else "\n|\n|- caused by: " ++ m) ++
      causeLoop alternate next

/-- The `Display` implementation for `NeuErrImpl` (src/error.rs): with no human
infos the placeholder is written, otherwise the narration loop runs; then the
source chain loop runs. `alternate = true` is the compact single-line mode
(`"{err:#}"`), `alternate = false` the expanded multi-line mode (`"{err}"`). -/
def NeuErrImpl.render (e : NeuErrImpl) (alternate : Bool) : String :=
  (if e.contextsList.isEmpty then "Unknown error" else humanLoop alternate e.contextsList) ++
    (match e.source with
     | none => ""
     | some c => causeLoop alternate c)

/-- The runtime type tag designated for `std::process::ExitCode` attachments. -/
def exitCodeTag : Nat := 0

/-- Model of the value of `ExitCode::FAILURE`. -/
def exitCodeFailure : Nat := 1

/-- `impl Termination for NeuErrImpl` (src/error.rs): the `ExitCode` attachment
if present, `ExitCode::FAILURE` otherwise. -/
def NeuErrImpl.report (e : NeuErrImpl) : Nat :=
  (e.attachment exitCodeTag).getD exitCodeFailure

/-- `CtxResultExt::context` for `Result<T, CtxError>` (src/results.rs). -/
def ctxContext {α : Type} (r : Except CtxError α) (msg : String) (loc : Loc) :
    Except CtxError α :=
  match r with
  | .ok value => .ok value
  | .error err => .error (err.context msg loc)

/-- `CtxResultExt::context_with`: the message is built by the closure only on
the error branch. -/
def ctxContextWith {α : Type} (r : Except CtxError α) (f : Unit → String) (loc : Loc) :
    Except CtxError α :=
  match r with
  | .ok value => .ok value
  | .error err => .error (err.context (f ()) loc)

/-- `CtxResultExt::attach` (`map_err`). -/
def ctxAttach {α : Type} (r : Except CtxError α) (t v : Nat) : Except CtxError α :=
  Except.mapError (fun err => err.attach t v) r

/-- `CtxResultExt::attach_with` (`map_err`, closure invoked on error only). -/
def ctxAttachWith {α : Type} (r : Except CtxError α) (t : Nat) (f : Unit → Nat) :
    Except CtxError α :=
  Except.mapError (fun err => err.attach t (f ())) r

/-- `CtxResultExt::attach_override` (`map_err`). -/
def ctxAttachOverride {α : Type} (r : Except CtxError α) (t v : Nat) : Except CtxError α :=
  Except.mapError (fun err => err.attach_override t v) r

/-- `CtxResultExt::attach_override_with` (`map_err`, closure on error only). -/
def ctxAttachOverrideWith {α : Type} (r : Except CtxError α) (t : Nat) (f : Unit → Nat) :
    Except CtxError α :=
  Except.mapError (fun err => err.attach_override t (f ())) r

/-- `ConvertResult::context` (src/results.rs) for a `Result` carrying a foreign
error: on the error branch, wrap the foreign error as causal source via
`from_source` and add the narration. -/
def convContext {α : Type} (r : Except ChainErr α) (msg : String) (loc : Loc) :
    Except CtxError α :=
  match r with
  | .ok value => .ok value
  | .error err => .error ((NeuErrImpl.from_source err).context msg loc)

/-- Messages of a causal chain, from the immediate cause outward. -/
def ChainErr.chainMsgs : ChainErr → List String
  | .leaf m => [m]
  | .node m next => m :: next.chainMsgs

/-- The causal-chain messages of an error (empty when it has no source). -/
def NeuErrImpl.sourceChain (e : NeuErrImpl) : List String :=
  match e.source with
  | none => []
  | some c => c.chainMsgs

/-- Join blocks with a separator between consecutive blocks. -/
def joinSep (sep : String) : List String → String
  | [] => ""
  | [s] => s
  | s :: rest => s ++ sep ++ joinSep sep rest

/-- Concatenation of string parts. -/
def concatParts : List String → String
  | [] => ""
  | s :: rest => s ++ concatParts rest

/-- Expanded rendering as described by the spec's words (section 4.3): the
placeholder for zero narrations, otherwise the newest-first two-line blocks
joined by the separator line, followed by one caused-by block per causal
link. Stated from the spec to be compared against the renderer translated
from the source. -/
def specExpandedRender (e : NeuErrImpl) : String :=
  (if e.contextsList.isEmpty then "Unknown error"
   else joinSep "\n|\n" (e.contextsList.map fun c => c.message ++ "\n|- at " ++ c.location)) ++
    concatParts (e.sourceChain.map fun m => "\n|\n|- caused by: " ++ m)

/-- Compact rendering as described by the spec's words (section 4.3): same data
and order, blocks joined with the semicolon separator, causal links appended
without indentation. Stated from the spec to be compared against the renderer
translated from the source. -/
def specCompactRender (e : NeuErrImpl) : String :=
  (if e.contextsList.isEmpty then "Unknown error"
   else joinSep "; " (e.contextsList.map fun c => c.message ++ " (at " ++ c.location ++ ")")) ++
    concatParts (e.sourceChain.map fun m => "; caused by: " ++ m)

/-! Helper lemmas about the `attach_override` retain pass. -/

theorem isAttachOf_machine (t : Nat) (m : MachineInfo) : isAttachOf t (.machine m) = (m.tag == t) :=
  rfl

theorem isAttachOf_human (t : Nat) (h : HumanInfo) : isAttachOf t (.human h) = false :=
  rfl

theorem overrideGo_true (t v : Nat) (l : List Info) :
    overrideGo t v l true = (l.filter (fun i => !(isAttachOf t i)), true) := by
  induction l with
  | nil => rfl
  | cons i rest ih =>
    cases i with
    | human h => simp [overrideGo, isAttachOf, ih]
    | machine m =>
      by_cases hm : m.tag = t
      · simp [overrideGo, isAttachOf, hm, ih]
      · simp [overrideGo, isAttachOf, hm, ih]

theorem overrideResult_nil (t v : Nat) : overrideResult t v [] = [.machine ⟨t, v⟩] := rfl

theorem overrideResult_cons_not (t v : Nat) (i : Info) (l : List Info)
    (h : isAttachOf t i = false) :
    overrideResult t v (i :: l) = i :: overrideResult t v l := by
  cases i with
  | human hh =>
    simp only [overrideResult, overrideGo]
    cases hr : (overrideGo t v l false).2 <;> simp [hr]
  | machine m =>
    have hm : ¬(m.tag = t) := by
      intro he
      simp [isAttachOf, he] at h
    simp only [overrideResult, overrideGo, if_neg hm]
    cases hr : (overrideGo t v l false).2 <;> simp [hr]

theorem overrideResult_cons_match (t v : Nat) (m : MachineInfo) (l : List Info)
    (h : m.tag = t) :
    overrideResult t v (.machine m :: l) =
      .machine ⟨t, v⟩ :: l.filter (fun i => !(isAttachOf t i)) := by
  simp [overrideResult, overrideGo, if_pos h, overrideGo_true]

theorem filter_of_filter_not (t : Nat) (l : List Info) :
    (l.filter fun i => !(isAttachOf t i)).filter (isAttachOf t) = [] := by
  induction l with
  | nil => rfl
  | cons i rest ih =>
    cases hi : isAttachOf t i <;> simp [hi, ih]

theorem filter_not_idem (t : Nat) (l : List Info) :
    (l.filter fun i => !(isAttachOf t i)).filter (fun i => !(isAttachOf t i)) =
      l.filter fun i => !(isAttachOf t i) := by
  induction l with
  | nil => rfl
  | cons i rest ih =>
    cases hi : isAttachOf t i <;> simp [hi, ih]

theorem overrideResult_filter_match (t v : Nat) (l : List Info) :
    (overrideResult t v l).filter (isAttachOf t) = [.machine ⟨t, v⟩] := by
  induction l with
  | nil =>
    simp [overrideResult_nil, isAttachOf]
  | cons i rest ih =>
    cases hi : isAttachOf t i
    · rw [overrideResult_cons_not t v i rest hi]
      simp [hi, ih]
    · cases i with
      | human h => simp [isAttachOf] at hi
      | machine m =>
        have hm : m.tag = t := by
          simpa [isAttachOf] using hi
        rw [overrideResult_cons_match t v m rest hm]
        simp [isAttachOf, filter_of_filter_not]

theorem overrideResult_filter_other (t v : Nat) (l : List Info) :
    (overrideResult t v l).filter (fun i => !(isAttachOf t i)) =
      l.filter (fun i => !(isAttachOf t i)) := by
  induction l with
  | nil =>
    simp [overrideResult_nil, isAttachOf]
  | cons i rest ih =>
    cases hi : isAttachOf t i
    · rw [overrideResult_cons_not t v i rest hi]
      simp [hi, ih]
    · cases i with
      | human h => simp [isAttachOf] at hi
      | machine m =>
        have hm : m.tag = t := by
          simpa [isAttachOf] using hi
        rw [overrideResult_cons_match t v m rest hm]
        simp [List.filter_cons, isAttachOf_machine, hm, filter_not_idem]

theorem overrideResult_absent (t v : Nat) (l : List Info)
    (h : l.all (fun i => !(isAttachOf t i)) = true) :
    overrideResult t v l = l ++ [.machine ⟨t, v⟩] := by
  induction l with
  | nil => rfl
  | cons i rest ih =>
    rw [List.all_cons, Bool.and_eq_true] at h
    have hi : isAttachOf t i = false := by
      simpa using h.1
    rw [overrideResult_cons_not t v i rest hi, ih h.2]
    rfl

theorem overrideResult_present (t v : Nat) :
    ∀ (pre : List Info) (x : Info) (suf : List Info), isAttachOf t x = true →
      pre.all (fun i => !(isAttachOf t i)) = true →
      overrideResult t v (pre ++ x :: suf) =
        pre ++ .machine ⟨t, v⟩ :: suf.filter (fun i => !(isAttachOf t i)) := by
  intro pre
  induction pre with
  | nil =>
    intro x suf hx _
    cases x with
    | human h => simp [isAttachOf] at hx
    | machine m =>
      have hm : m.tag = t := by
        simpa [isAttachOf] using hx
      simpa using overrideResult_cons_match t v m suf hm
  | cons p pre ih =>
    intro x suf hx hall
    rw [List.all_cons, Bool.and_eq_true] at hall
    have hp : isAttachOf t p = false := by
      simpa using hall.1
    rw [List.cons_append, overrideResult_cons_not t v p _ hp, ih x suf hx hall.2]
    rfl

/-- Claim C1: `attach_override` leaves exactly one attachment entry of the
supplied type in the stack, holding the value supplied in that call; entries of
other types keep their relative order; when the stack held no entry of that
type the new entry is appended at the end, and when it held one, the surviving
entry sits at the position of the oldest prior entry of that type (duplicates
further up are dropped), not at the top. -/
theorem attach_override_replaces_in_place (e : NeuErrImpl) (t v : Nat) :
    (e.attach_override t v).infos.filter (isAttachOf t) = [.machine ⟨t, v⟩] ∧
    (e.attach_override t v).infos.filter (fun i => !(isAttachOf t i)) =
      e.infos.filter (fun i => !(isAttachOf t i)) ∧
    (e.infos.all (fun i => !(isAttachOf t i)) = true →
      (e.attach_override t v).infos = e.infos ++ [.machine ⟨t, v⟩]) ∧
    (∀ (pre : List Info) (x : Info) (suf : List Info),
      e.infos = pre ++ x :: suf → isAttachOf t x = true →
      pre.all (fun i => !(isAttachOf t i)) = true →
      (e.attach_override t v).infos =
        pre ++ .machine ⟨t, v⟩ :: suf.filter (fun i => !(isAttachOf t i))) := by
  refine ⟨overrideResult_filter_match t v e.infos, overrideResult_filter_other t v e.infos,
    fun h => overrideResult_absent t v e.infos h, fun pre x suf hsplit hx hall => ?_⟩
  show overrideResult t v e.infos = _
  rw [hsplit]
  exact overrideResult_present t v pre x suf hx hall

/-- Concrete instance of claim C1: on the stack `[human, A1, B, A3]` (types
`A = 0`, `B = 1`), overriding type `A` with value `9` keeps the slot of the
oldest `A` and drops the duplicate; on a stack without machine entries the new
entry is appended. -/
theorem attach_override_replaces_in_place_witness :
    (NeuErrImpl.attach_override
      { infos := [.human ⟨"m", "L"⟩], source := none } 0 9).infos =
      [.human ⟨"m", "L"⟩] ++ [.machine ⟨0, 9⟩] ∧
    (NeuErrImpl.attach_override
      { infos := [.human ⟨"m", "L"⟩, .machine ⟨0, 1⟩, .machine ⟨1, 2⟩, .machine ⟨0, 3⟩],
        source := none } 0 9).infos =
      [.human ⟨"m", "L"⟩] ++ .machine ⟨0, 9⟩ ::
        ([.machine ⟨1, 2⟩, .machine ⟨0, 3⟩].filter fun i => !(isAttachOf 0 i)) := by
  constructor
  · exact (attach_override_replaces_in_place
      { infos := [.human ⟨"m", "L"⟩], source := none } 0 9).2.2.1 (by decide)
  · exact (attach_override_replaces_in_place
      { infos := [.human ⟨"m", "L"⟩, .machine ⟨0, 1⟩, .machine ⟨1, 2⟩, .machine ⟨0, 3⟩],
        source := none } 0 9).2.2.2
      [.human ⟨"m", "L"⟩] (.machine ⟨0, 1⟩) [.machine ⟨1, 2⟩, .machine ⟨0, 3⟩]
      rfl (by decide) (by decide)

/-! Helper lemmas about the stack readers. -/

theorem filterMap_humanOf_filter_not (t : Nat) (l : List Info) :
    (l.filter fun i => !(isAttachOf t i)).filterMap humanOf = l.filterMap humanOf := by
  induction l with
  | nil => rfl
  | cons i rest ih =>
    cases i with
    | human h => simp [List.filter_cons, isAttachOf_human, humanOf, ih]
    | machine m =>
      by_cases hm : m.tag = t
      · simp [List.filter_cons, isAttachOf_machine, hm, humanOf, ih]
      · simp [List.filter_cons, isAttachOf_machine, hm, humanOf, ih]

theorem overrideResult_filterMap_humanOf (t v : Nat) (l : List Info) :
    (overrideResult t v l).filterMap humanOf = l.filterMap humanOf := by
  induction l with
  | nil => simp [overrideResult_nil, humanOf]
  | cons i rest ih =>
    cases hi : isAttachOf t i
    · rw [overrideResult_cons_not t v i rest hi]
      cases i with
      | human h => simp [humanOf, ih]
      | machine m => simp [humanOf, ih]
    · cases i with
      | human h => simp [isAttachOf_human] at hi
      | machine m =>
        have hm : m.tag = t := by
          simpa [isAttachOf_machine] using hi
        rw [overrideResult_cons_match t v m rest hm]
        simp [humanOf, filterMap_humanOf_filter_not]

theorem contextsList_context (e : NeuErrImpl) (msg : String) (loc : Loc) :
    (e.context msg loc).contextsList = ⟨msg, loc⟩ :: e.contextsList := by
  simp [NeuErrImpl.contextsList, NeuErrImpl.infosRev, NeuErrImpl.context, humanOf]

theorem contextsList_attach (e : NeuErrImpl) (t v : Nat) :
    (e.attach t v).contextsList = e.contextsList := by
  simp [NeuErrImpl.contextsList, NeuErrImpl.infosRev, NeuErrImpl.attach, humanOf]

theorem contextsList_attach_override (e : NeuErrImpl) (t v : Nat) :
    (e.attach_override t v).contextsList = e.contextsList := by
  show (overrideResult t v e.infos).reverse.filterMap humanOf = e.infos.reverse.filterMap humanOf
  rw [List.filterMap_reverse, List.filterMap_reverse, overrideResult_filterMap_humanOf]

theorem attachments_attach_same (e : NeuErrImpl) (t v : Nat) :
    (e.attach t v).attachments t = v :: e.attachments t := by
  simp [NeuErrImpl.attachments, NeuErrImpl.infosRev, NeuErrImpl.attach, machineOf, downcastTo]

theorem attachments_attach_other (e : NeuErrImpl) (t t' v : Nat) (h : ¬(t = t')) :
    (e.attach t v).attachments t' = e.attachments t' := by
  simp [NeuErrImpl.attachments, NeuErrImpl.infosRev, NeuErrImpl.attach, machineOf, downcastTo, h]

theorem attachment_eq_getLast (e : NeuErrImpl) (t : Nat) :
    e.attachment t = ((e.infos.filterMap machineOf).filterMap (downcastTo t)).getLast? := by
  show ((e.infos.reverse.filterMap machineOf).filterMap (downcastTo t)).head? = _
  rw [List.filterMap_reverse, List.filterMap_reverse, List.head?_reverse]

/-- Claim C10: every mutator (`context`, `attach`, `attach_override`) leaves
the causal source unchanged; moreover `context` and `attach` leave every
existing stack entry and their relative order unchanged, appending exactly one
new entry at the end of the stack. -/
theorem mutators_preserve_source_frame (e : NeuErrImpl) (msg : String) (loc : Loc) (t v : Nat) :
    (e.context msg loc).source = e.source ∧
    (e.attach t v).source = e.source ∧
    (e.attach_override t v).source = e.source ∧
    (e.context msg loc).infos = e.infos ++ [.human ⟨msg, loc⟩] ∧
    (e.attach t v).infos = e.infos ++ [.machine ⟨t, v⟩] :=
  ⟨rfl, rfl, rfl, rfl, rfl⟩

theorem render_congr (e e' : NeuErrImpl) (alt : Bool)
    (h1 : e.contextsList = e'.contextsList) (h2 : e.source = e'.source) :
    e.render alt = e'.render alt := by
  unfold NeuErrImpl.render
  rw [h1, h2]

/-- Claim C9: rendering never consults attachments: attaching any value (via
`attach` or `attach_override`) leaves the rendered text unchanged, in both the
expanded and the compact mode. -/
theorem render_ignores_attachments (e : NeuErrImpl) (t v : Nat) (alt : Bool) :
    (e.attach t v).render alt = e.render alt ∧
    (e.attach_override t v).render alt = e.render alt :=
  ⟨render_congr _ e alt (contextsList_attach e t v) rfl,
   render_congr _ e alt (contextsList_attach_override e t v) rfl⟩

/-- Claim C4: for every sequence of `context` calls, the narrations reader
yields the narration messages in exact reverse insertion order (newest first);
the traversal is a finite list and, being a pure function of the error, each
call yields the same fresh traversal. -/
theorem contexts_reverse_insertion_order (e : NeuErrImpl) (ps : List (String × Loc)) :
    (ps.foldl (fun acc p => acc.context p.1 p.2) e).contextsList.map HumanInfo.message =
      (ps.map Prod.fst).reverse ++ e.contextsList.map HumanInfo.message := by
  induction ps generalizing e with
  | nil => simp
  | cons p ps ih =>
    rw [List.foldl_cons, ih, contextsList_context]
    simp

theorem attachments_foldl (e : NeuErrImpl) (t : Nat) (vs : List Nat) :
    (vs.foldl (fun acc w => acc.attach t w) e).attachments t = vs.reverse ++ e.attachments t := by
  induction vs generalizing e with
  | nil => simp
  | cons w vs ih =>
    rw [List.foldl_cons, ih, attachments_attach_same]
    simp

/-- Claim C5: `attach` never deduplicates: `N` attach calls of type `t` yield
the `N` values (newest first) in front of the previously present ones, so the
count of `attachments` equals the number of attach calls of that type; an
attach of a different runtime type leaves `attachments` of type `t'` untouched
(exact type match); `attachment` is the head of `attachments`, i.e. the newest
matching attachment in insertion order, and `none` when there is no match. -/
theorem attach_appends_no_dedup (e : NeuErrImpl) (t t' v : Nat) (vs : List Nat) :
    (vs.foldl (fun acc w => acc.attach t w) e).attachments t = vs.reverse ++ e.attachments t ∧
    ((vs.foldl (fun acc w => acc.attach t w) e).attachments t).length =
      vs.length + (e.attachments t).length ∧
    (¬(t = t') → (e.attach t v).attachments t' = e.attachments t') ∧
    e.attachment t = (e.attachments t).head? ∧
    e.attachment t = ((e.infos.filterMap machineOf).filterMap (downcastTo t)).getLast? := by
  refine ⟨attachments_foldl e t vs, ?_, fun h => attachments_attach_other e t t' v h, rfl,
    attachment_eq_getLast e t⟩
  rw [attachments_foldl]
  simp

/-- Concrete instance of claim C5: attaching type `0` does not disturb the
attachments of type `1`. -/
theorem attach_appends_no_dedup_witness :
    ((NeuErrImpl.new "m" "L").attach 0 5).attachments 1 =
      (NeuErrImpl.new "m" "L").attachments 1 :=
  (attach_appends_no_dedup (NeuErrImpl.new "m" "L") 0 1 5 []).2.2.1 (by decide)

/-! Helper lemmas about the renderer. -/

theorem humanBlock_false_eq :
    humanBlock false = fun c => c.message ++ "\n|- at " ++ c.location := by
  funext c
  simp [humanBlock]

theorem humanBlock_true_eq :
    humanBlock true = fun c => c.message ++ " (at " ++ c.location ++ ")" := by
  funext c
  simp [humanBlock]

theorem humanLoop_eq_joinSep (alt : Bool) (l : List HumanInfo) :
    humanLoop alt l = joinSep (if alt then "; " else "\n|\n") (l.map (humanBlock alt)) := by
  induction l with
  | nil => rfl
  | cons c rest ih =>
    cases rest with
    | nil => rfl
    | cons d rest' =>
      show humanBlock alt c ++ (if alt then "; " else "\n|\n") ++ humanLoop alt (d :: rest') =
        humanBlock alt c ++ (if alt then "; " else "\n|\n") ++
          joinSep (if alt then "; " else "\n|\n") ((d :: rest').map (humanBlock alt))
      rw [ih]

theorem causeLoop_eq (alt : Bool) (c : ChainErr) :
    causeLoop alt c =
      concatParts (c.chainMsgs.map fun m =>
        (if alt then "; caused by: " else "\n|\n|- caused by: ") ++ m) := by
  cases alt with
  | false =>
    induction c with
    | leaf m => simp [causeLoop, ChainErr.chainMsgs, concatParts, String.append_empty]
    | node m next ih => simp [causeLoop, ChainErr.chainMsgs, concatParts, ih]
  | true =>
    induction c with
    | leaf m => simp [causeLoop, ChainErr.chainMsgs, concatParts, String.append_empty]
    | node m next ih => simp [causeLoop, ChainErr.chainMsgs, concatParts, ih]

/-- Claim C2: the expanded (multi-line) rendering emits the literal placeholder
when there are zero narration entries, otherwise each narration newest-first as
a two-line block (message, then the location line) with a separator line
between blocks, and afterwards walks the causal chain from the immediate cause
outward emitting one caused-by block per link, stopping at the first link with
no further cause; with zero narrations and a cause the output is the
placeholder followed by the causal chain text. -/
theorem expanded_render_spec (e : NeuErrImpl) :
    e.render false = specExpandedRender e ∧
    (∀ c : ChainErr, e.contextsList = [] → e.source = some c →
      e.render false =
        "Unknown error" ++ concatParts (c.chainMsgs.map fun m => "\n|\n|- caused by: " ++ m)) := by
  have hmain : e.render false = specExpandedRender e := by
    unfold NeuErrImpl.render specExpandedRender NeuErrImpl.sourceChain
    rw [humanLoop_eq_joinSep, humanBlock_false_eq]
    cases hs : e.source with
    | none => simp [concatParts]
    | some c => simp [causeLoop_eq]
  refine ⟨hmain, fun c h1 h2 => ?_⟩
  rw [hmain]
  unfold specExpandedRender NeuErrImpl.sourceChain
  rw [h1, h2]
  simp

/-- Concrete instance of claim C2: zero narrations plus a cause render as the
placeholder followed by the causal chain text. -/
theorem expanded_render_spec_witness :
    (NeuErrImpl.from_source (ChainErr.leaf "boom")).render false =
      "Unknown error" ++
        concatParts ((ChainErr.leaf "boom").chainMsgs.map fun m => "\n|\n|- caused by: " ++ m) :=
  (expanded_render_spec (NeuErrImpl.from_source (ChainErr.leaf "boom"))).2
    (ChainErr.leaf "boom") rfl rfl

/-- Claim C3: the compact (single-line) rendering uses the same data and the
same newest-first order as the expanded one, but joins narration blocks with
the semicolon separator, formats each block as message with parenthesized
location, and appends each causal link without indentation; the example
`new("Level 0").context("Level 1").context("Level 2")` renders compactly as
the three blocks newest first. -/
theorem compact_render_spec (e : NeuErrImpl) :
    e.render true = specCompactRender e ∧
    (((NeuErrImpl.new "Level 0" "L").context "Level 1" "L" |>.context "Level 2" "L").render true =
      "Level 2 (at L); Level 1 (at L); Level 0 (at L)") := by
  constructor
  · unfold NeuErrImpl.render specCompactRender NeuErrImpl.sourceChain
    rw [humanLoop_eq_joinSep, humanBlock_true_eq]
    cases hs : e.source with
    | none => simp [concatParts]
    | some c => simp [causeLoop_eq]
  · rfl

/-- Claim C6: the `Result` combinators return the `Ok` branch unchanged and
unexamined (the result on the success path is `Ok` of the same value for every
closure, so the `_with` closures are never consulted there), and on the `Err`
branch they apply the corresponding error-value mutator. -/
theorem result_combinators_pass_through (α : Type) (x : α) (e : CtxError)
    (msg : String) (loc : Loc) (t v : Nat) (f : Unit → String) (g : Unit → Nat) :
    ctxContext (Except.ok x : Except CtxError α) msg loc = Except.ok x ∧
    ctxContext (Except.error e : Except CtxError α) msg loc = Except.error (e.context msg loc) ∧
    ctxContextWith (Except.ok x : Except CtxError α) f loc = Except.ok x ∧
    ctxContextWith (Except.error e : Except CtxError α) f loc =
      Except.error (e.context (f ()) loc) ∧
    ctxAttach (Except.ok x : Except CtxError α) t v = Except.ok x ∧
    ctxAttach (Except.error e : Except CtxError α) t v = Except.error (e.attach t v) ∧
    ctxAttachWith (Except.ok x : Except CtxError α) t g = Except.ok x ∧
    ctxAttachWith (Except.error e : Except CtxError α) t g =
      Except.error (e.attach t (g ())) ∧
    ctxAttachOverride (Except.ok x : Except CtxError α) t v = Except.ok x ∧
    ctxAttachOverride (Except.error e : Except CtxError α) t v =
      Except.error (e.attach_override t v) ∧
    ctxAttachOverrideWith (Except.ok x : Except CtxError α) t g = Except.ok x ∧
    ctxAttachOverrideWith (Except.error e : Except CtxError α) t g =
      Except.error (e.attach_override t (g ())) :=
  ⟨rfl, rfl, rfl, rfl, rfl, rfl, rfl, rfl, rfl, rfl, rfl, rfl⟩

/-- Claim C7: `ConvertResult::context` on an `Err` holding a foreign error
produces an `Err` whose error value has exactly one narration entry carrying
the supplied message and whose `source()` is the original foreign error; an
`Ok` input passes through unchanged. -/
theorem convert_context_wraps_source (α : Type) (x : α) (msg : String) (loc : Loc)
    (c : ChainErr) :
    convContext (Except.ok x : Except ChainErr α) msg loc = Except.ok x ∧
    ∃ e : CtxError, convContext (Except.error c : Except ChainErr α) msg loc = Except.error e ∧
      e.contextsList.map HumanInfo.message = [msg] ∧
      e.contextsList.length = 1 ∧
      e.source = some c :=
  ⟨rfl, ⟨(NeuErrImpl.from_source c).context msg loc, rfl, rfl, rfl, rfl⟩⟩

/-- Claim C8: the termination mapping looks up the designated exit-signal
attachment type: it reports that attachment when present and the generic
failure signal when absent. -/
theorem termination_report_exit_code (e : NeuErrImpl) :
    (e.attachment exitCodeTag = none → e.report = exitCodeFailure) ∧
    (∀ v : Nat, e.attachment exitCodeTag = some v → e.report = v) := by
  constructor
  · intro h
    unfold NeuErrImpl.report
    rw [h]
    rfl
  · intro v h
    unfold NeuErrImpl.report
    rw [h]
    rfl

/-- Concrete instance of claim C8: a fresh error reports the generic failure
code, and an error with an exit-code attachment of value `0` reports `0`. -/
theorem termination_report_exit_code_witness :
    (NeuErrImpl.new "test" "L").report = exitCodeFailure ∧
    ((NeuErrImpl.new "test" "L").attach exitCodeTag 0).report = 0 :=
  ⟨(termination_report_exit_code (NeuErrImpl.new "test" "L")).1 rfl,
   (termination_report_exit_code ((NeuErrImpl.new "test" "L").attach exitCodeTag 0)).2 0 rfl⟩

end NeuerError

